import Mathlib

/-!
Shallow embedding of the BrickByte share-trading ledger
(src/backend/src/index.js, the POST /api/properties/:id/buy and
POST /api/properties/:id/sell handlers together with the read endpoints
GET /api/transactions and GET /api/user/shares).

The Supabase store is modelled as three in-memory tables:
  * properties   : association list from property id to the Property row,
  * user_shares  : list of Holding rows keyed by (user_id, property_id),
  * transactions : the append-only list of Transaction rows.

Ids are Strings (uuids in the store); share counts are Int, mirroring
JavaScript number arithmetic on integer inputs (the handlers perform no
validation that shares is a positive integer).  The caller identity is
`Option String`: resolveUserByWallet attaches no user when no wallet
header or body field is present, and the handlers then use
`req.user?.id`, i.e. a null user id.  Timestamp columns (created_at,
updated_at) are omitted: no verified property mentions them.

Each store write (`insert` into transactions, `upsert`/`update` of
user_shares, `update` of properties) can fail in the real system; a
`FailureSchedule` says which of the three writes of one handler run
returns an error.  A failing write leaves its table unchanged and makes
the handler throw (the `if (error) throw error` lines), which the error
middleware turns into a server error response; earlier writes of the
same run are NOT rolled back, exactly as in the source, which issues the
three writes as separate sequential Supabase calls with no transaction.

The buy handler is split into `buyCheck` (the two reads: the property
row and the existing user_shares row, lines 288-314) and `buyCommit`
(the three writes, lines 316-354), composed into `buyOp`.  The split lets
an interleaving of two concurrent buys be expressed by running both
checks against the same state before either commit, which is precisely
the stale-read behaviour of the source: the property update writes the
absolute value `property.available_shares - shares` computed from the
snapshot read at check time (line 349).
-/

namespace BrickByte

/-- A row of the `properties` table.  Only the columns the ledger logic
reads or writes are modelled; `price_per_share` is only ever copied into
transaction rows, never computed with. -/
structure Property where
  total_shares : Int
  available_shares : Int
  price_per_share : Int
  deriving DecidableEq, Repr

/-- The `type` column of the `transactions` table. -/
inductive TxType where
  | BUY
  | SELL
  deriving DecidableEq, Repr

/-- A row of the `transactions` table (created_at omitted). -/
structure Transaction where
  property_id : String
  user_id : Option String
  type : TxType
  shares : Int
  price_per_share : Int
  deriving DecidableEq, Repr

/-- A row of the `user_shares` table (updated_at omitted).  `user_id` is
optional because the handlers write `req.user?.id`, which is null when
no wallet was resolved. -/
structure Holding where
  user_id : Option String
  property_id : String
  shares : Int
  deriving DecidableEq, Repr

/-- The ledger store: the three tables the trading handlers touch. -/
structure LedgerState where
  properties : List (String × Property)
  user_shares : List Holding
  transactions : List Transaction
  deriving DecidableEq, Repr

/-- `select ... eq('id', pid) single()`: the first properties row with the
given id, if any. -/
def lookupProp : List (String × Property) → String → Option Property
  | [], _ => none
  | (k, v) :: rest, pid => if k = pid then some v else lookupProp rest pid

/-- `update ... eq('id', pid)`: apply the column update to every
properties row whose id matches. -/
def updateProp : List (String × Property) → String → (Property → Property) → List (String × Property)
  | [], _, _ => []
  | (k, v) :: rest, pid, g => (k, if k = pid then g v else v) :: updateProp rest pid g

/-- `select shares eq('user_id', uid) eq('property_id', pid) single()`:
the shares column of the first matching user_shares row, if any. -/
def lookupHolding : List Holding → Option String → String → Option Int
  | [], _, _ => none
  | h :: rest, uid, pid =>
      if h.user_id = uid ∧ h.property_id = pid then some h.shares
      else lookupHolding rest uid pid

/-- `upsert ... onConflict 'user_id,property_id'`: replace the shares of
the row with the given key, or insert a fresh row when none exists. -/
def upsertHolding : List Holding → Option String → String → Int → List Holding
  | [], uid, pid, v => [⟨uid, pid, v⟩]
  | h :: rest, uid, pid, v =>
      if h.user_id = uid ∧ h.property_id = pid then ⟨uid, pid, v⟩ :: rest
      else h :: upsertHolding rest uid pid v

/-- `update ... eq('user_id', uid) eq('property_id', pid)`: set the shares
column of every user_shares row with the given key. -/
def updateHolding : List Holding → Option String → String → Int → List Holding
  | [], _, _, _ => []
  | h :: rest, uid, pid, v =>
      (if h.user_id = uid ∧ h.property_id = pid then { h with shares := v } else h)
        :: updateHolding rest uid pid v

/-- Sum of the shares of every user_shares row for one property (any
user, null user included). -/
def holdingsSum : List Holding → String → Int
  | [], _ => 0
  | h :: rest, pid => (if h.property_id = pid then h.shares else 0) + holdingsSum rest pid

/-- The composite key (user_id, property_id) of each user_shares row is
unique, as enforced by the store constraint behind `onConflict`. -/
def keysNodup (hs : List Holding) : Prop :=
  (hs.map fun h => (h.user_id, h.property_id)).Nodup

instance (hs : List Holding) : Decidable (keysNodup hs) := by
  unfold keysNodup; infer_instance

/-- The spec's ledger invariant for one property id: when the property
row exists, its available pool plus every holding of it equals its fixed
total supply. -/
def shareInvariant (s : LedgerState) (pid : String) : Prop :=
  ∀ p, lookupProp s.properties pid = some p →
    p.available_shares + holdingsSum s.user_shares pid = p.total_shares

instance (s : LedgerState) (pid : String) : Decidable (shareInvariant s pid) :=
  match h : lookupProp s.properties pid with
  | none => isTrue (fun p hp => by rw [h] at hp; exact Option.noConfusion hp)
  | some q =>
      if hq : q.available_shares + holdingsSum s.user_shares pid = q.total_shares then
        isTrue (fun p hp => by rw [h] at hp; injection hp with he; exact he ▸ hq)
      else
        isFalse (fun hall => hq (hall q h))

/-- How the handler run ends, mirroring the response sent by the source:
201 'Shares purchased successfully', 200 'Shares sold successfully',
400 'Not enough shares available' (the spec's InsufficientSupply),
400 'Insufficient shares' (the spec's InsufficientHolding), or a thrown
store error handed to next(error) (server error; this is also what a
missing property row produces, because `.single()` errors on zero rows
and both handlers rethrow that error before reaching their 404 branch). -/
inductive Outcome where
  | purchased
  | sold
  | notEnoughShares
  | insufficientShares
  | thrownError
  deriving DecidableEq, Repr

/-- Which of the three store writes of one handler run fail. -/
structure FailureSchedule where
  txError : Bool
  holdingError : Bool
  propError : Bool
  deriving DecidableEq, Repr

/-- The schedule on which every store write succeeds. -/
def noFail : FailureSchedule := ⟨false, false, false⟩

/-- Snapshot taken by the read phase of the buy handler: the property row
and the shares of the caller's existing user_shares row, if any. -/
structure BuySnapshot where
  prop : Property
  existing : Option Int
  deriving DecidableEq, Repr

/-- Read phase of POST /api/properties/:id/buy (index.js lines 288-314):
read the property row (a missing row makes `.single()` error, which is
thrown), reject with 'Not enough shares available' when
`property.available_shares < shares`, then read the caller's existing
user_shares row (absence is tolerated: the PGRST116 error code is
exempted from the rethrow). -/
def buyCheck (s : LedgerState) (pid : String) (shares : Int) (uid : Option String) :
    Except Outcome BuySnapshot :=
  match lookupProp s.properties pid with
  | none => Except.error Outcome.thrownError
  | some property =>
      if property.available_shares < shares then Except.error Outcome.notEnoughShares
      else Except.ok ⟨property, lookupHolding s.user_shares uid pid⟩

/-- Write phase of POST /api/properties/:id/buy (index.js lines 316-354):
insert the BUY transaction row, upsert the user_shares row to
`(existingShares?.shares || 0) + shares`, then update the property row to
the absolute value `property.available_shares - shares` computed from the
snapshot.  Each write may fail, in which case the handler throws and the
earlier writes of this run remain applied. -/
def buyCommit (f : FailureSchedule) (s : LedgerState) (pid : String) (shares : Int)
    (uid : Option String) (snap : BuySnapshot) : Outcome × LedgerState :=
  if f.txError then (Outcome.thrownError, s)
  else
    let s1 := { s with transactions :=
      s.transactions ++ [⟨pid, uid, TxType.BUY, shares, snap.prop.price_per_share⟩] }
    if f.holdingError then (Outcome.thrownError, s1)
    else
      let newShares := snap.existing.getD 0 + shares
      let s2 := { s1 with user_shares := upsertHolding s1.user_shares uid pid newShares }
      if f.propError then (Outcome.thrownError, s2)
      else
        let props :=
          updateProp s2.properties pid
            fun q => { q with available_shares := snap.prop.available_shares - shares }
        (Outcome.purchased, { s2 with properties := props })

/-- The whole buy handler: read phase then write phase, run back to back
with no interleaved request. -/
def buyOp (f : FailureSchedule) (s : LedgerState) (pid : String) (shares : Int)
    (uid : Option String) : Outcome × LedgerState :=
  match buyCheck s pid shares uid with
  | Except.error o => (o, s)
  | Except.ok snap => buyCommit f s pid shares uid snap

/-- POST /api/properties/:id/sell (index.js lines 362-434): read the
property row (missing row: thrown error, as for buy); read the caller's
user_shares row with `.single()` — here EVERY read error is rethrown
(line 387), so an absent holding produces a thrown store error and the
`!userShares` half of the insufficient check on line 388 is unreachable;
reject with 'Insufficient shares' when `userShares.shares < shares`;
then insert the SELL transaction row, update the user_shares row to
`userShares.shares - shares`, and update the property row to the
absolute value `property.available_shares + shares` from the read
snapshot.  Failed writes throw without rolling back earlier writes. -/
def sellOp (f : FailureSchedule) (s : LedgerState) (pid : String) (shares : Int)
    (uid : Option String) : Outcome × LedgerState :=
  match lookupProp s.properties pid with
  | none => (Outcome.thrownError, s)
  | some property =>
      match lookupHolding s.user_shares uid pid with
      | none => (Outcome.thrownError, s)
      | some userShares =>
          if userShares < shares then (Outcome.insufficientShares, s)
          else if f.txError then (Outcome.thrownError, s)
          else
            let s1 := { s with transactions :=
              s.transactions ++ [⟨pid, uid, TxType.SELL, shares, property.price_per_share⟩] }
            if f.holdingError then (Outcome.thrownError, s1)
            else
              let hs2 := updateHolding s1.user_shares uid pid (userShares - shares)
              let s2 := { s1 with user_shares := hs2 }
              if f.propError then (Outcome.thrownError, s2)
              else
                let props :=
                  updateProp s2.properties pid
                    fun q => { q with available_shares := property.available_shares + shares }
                (Outcome.sold, { s2 with properties := props })

/-- GET /api/transactions (index.js lines 472-500): the caller's
transaction rows, newest first; a pure select, the state is returned
unchanged. -/
def getTransactionsOp (s : LedgerState) (uid : Option String) :
    List Transaction × LedgerState :=
  ((s.transactions.filter fun t => t.user_id == uid).reverse, s)

/-- GET /api/user/shares (index.js lines 437-469): the caller's
user_shares rows; a pure select, the state is returned unchanged. -/
def getUserSharesOp (s : LedgerState) (uid : Option String) :
    List Holding × LedgerState :=
  (s.user_shares.filter fun h => h.user_id == uid, s)

/-- A one-property store with the full supply of 100 shares available and
no holdings, used to instantiate the general theorems. -/
def sampleState : LedgerState :=
  ⟨[("p1", ⟨100, 100, 5⟩)], [], []⟩

/-- A one-property store in which user u1 already holds 10 of the 100
shares. -/
def sampleWithHolding : LedgerState :=
  ⟨[("p1", ⟨100, 90, 5⟩)], [⟨some "u1", "p1", 10⟩], []⟩

example : buyOp noFail sampleState "p1" 10 (some "u1") =
    (Outcome.purchased,
     ⟨[("p1", ⟨100, 90, 5⟩)], [⟨some "u1", "p1", 10⟩], [⟨"p1", some "u1", TxType.BUY, 10, 5⟩]⟩) := by
  decide

example : sellOp noFail sampleWithHolding "p1" 4 (some "u1") =
    (Outcome.sold,
     ⟨[("p1", ⟨100, 94, 5⟩)], [⟨some "u1", "p1", 6⟩], [⟨"p1", some "u1", TxType.SELL, 4, 5⟩]⟩) := by
  decide

example : shareInvariant sampleState "p1" := by decide

example : shareInvariant sampleWithHolding "p1" := by decide

/-! ### Lemmas about the table operations -/

theorem lookupProp_updateProp (ps : List (String × Property)) (pid qid : String)
    (g : Property → Property) :
    lookupProp (updateProp ps pid g) qid =
      if pid = qid then (lookupProp ps qid).map g else lookupProp ps qid := by
  induction ps with
  | nil => simp only [updateProp, lookupProp, Option.map_none]; split <;> rfl
  | cons kv rest ih =>
      obtain ⟨k, v⟩ := kv
      by_cases hk : k = qid
      · subst hk
        by_cases hpq : pid = k
        · subst hpq; simp [updateProp, lookupProp]
        · have hkp : ¬k = pid := fun h => hpq h.symm
          simp [updateProp, lookupProp, hpq, hkp]
      · simp [updateProp, lookupProp, hk, ih]

theorem holdingsSum_upsertHolding (hs : List Holding) (uid : Option String)
    (pid qid : String) (v : Int) :
    holdingsSum (upsertHolding hs uid pid v) qid =
      holdingsSum hs qid +
        (if pid = qid then v - (lookupHolding hs uid pid).getD 0 else 0) := by
  induction hs with
  | nil =>
      simp only [upsertHolding, holdingsSum, lookupHolding, Option.getD_none]
      split <;> simp
  | cons h rest ih =>
      by_cases hm : h.user_id = uid ∧ h.property_id = pid
      · simp only [upsertHolding]
        rw [if_pos hm]
        simp only [holdingsSum, lookupHolding]
        rw [if_pos hm]
        simp only [Option.getD_some]
        rw [hm.2]
        by_cases hq : pid = qid
        · subst hq; simp only [eq_self_iff_true, if_true]; ring
        · simp only [if_neg hq]; ring
      · simp only [upsertHolding, holdingsSum, lookupHolding, if_neg hm]
        rw [ih]; ring

theorem lookupHolding_upsertHolding_self (hs : List Holding) (uid : Option String)
    (pid : String) (v : Int) :
    lookupHolding (upsertHolding hs uid pid v) uid pid = some v := by
  induction hs with
  | nil => simp [upsertHolding, lookupHolding]
  | cons h rest ih =>
      by_cases hm : h.user_id = uid ∧ h.property_id = pid
      · simp [upsertHolding, hm, lookupHolding]
      · simp [upsertHolding, hm, lookupHolding, ih]

theorem no_match_of_lookupHolding_none (hs : List Holding) (uid : Option String)
    (pid : String) (hl : lookupHolding hs uid pid = none) :
    ∀ h ∈ hs, ¬(h.user_id = uid ∧ h.property_id = pid) := by
  induction hs with
  | nil => simp
  | cons h rest ih =>
      intro g hg
      by_cases hm : h.user_id = uid ∧ h.property_id = pid
      · simp [lookupHolding, hm] at hl
      · rcases List.mem_cons.mp hg with rfl | hg2
        · exact hm
        · exact ih (by simpa [lookupHolding, hm] using hl) g hg2

theorem updateHolding_of_no_match (hs : List Holding) (uid : Option String)
    (pid : String) (v : Int)
    (hnone : ∀ h ∈ hs, ¬(h.user_id = uid ∧ h.property_id = pid)) :
    updateHolding hs uid pid v = hs := by
  induction hs with
  | nil => rfl
  | cons h rest ih =>
      simp only [updateHolding, if_neg (hnone h (List.mem_cons_self h rest))]
      rw [ih fun g hg => hnone g (List.mem_cons_of_mem h hg)]

theorem upsertHolding_of_lookup_none (hs : List Holding) (uid : Option String)
    (pid : String) (v : Int) (hl : lookupHolding hs uid pid = none) :
    upsertHolding hs uid pid v = hs ++ [⟨uid, pid, v⟩] := by
  induction hs with
  | nil => rfl
  | cons h rest ih =>
      by_cases hm : h.user_id = uid ∧ h.property_id = pid
      · simp [lookupHolding, hm] at hl
      · simp only [upsertHolding, if_neg hm, List.cons_append]
        rw [ih (by simpa [lookupHolding, hm] using hl)]

theorem updateHolding_append (a b : List Holding) (uid : Option String)
    (pid : String) (v : Int) :
    updateHolding (a ++ b) uid pid v = updateHolding a uid pid v ++ updateHolding b uid pid v := by
  induction a with
  | nil => rfl
  | cons h rest ih => simp only [List.cons_append, updateHolding, List.append_eq, ih]

theorem lookupHolding_append_of_none (a b : List Holding) (uid : Option String)
    (pid : String) (ha : lookupHolding a uid pid = none) :
    lookupHolding (a ++ b) uid pid = lookupHolding b uid pid := by
  induction a with
  | nil => rfl
  | cons h rest ih =>
      by_cases hm : h.user_id = uid ∧ h.property_id = pid
      · simp [lookupHolding, hm] at ha
      · simp only [List.cons_append, lookupHolding, if_neg hm]
        exact ih (by simpa [lookupHolding, hm] using ha)

theorem updateHolding_eq_upsertHolding (hs : List Holding) (uid : Option String)
    (pid : String) (v w : Int) (hnd : keysNodup hs)
    (hl : lookupHolding hs uid pid = some w) :
    updateHolding hs uid pid v = upsertHolding hs uid pid v := by
  induction hs with
  | nil => simp [lookupHolding] at hl
  | cons h rest ih =>
      rw [keysNodup, List.map_cons, List.nodup_cons] at hnd
      obtain ⟨hhead, htail⟩ := hnd
      by_cases hm : h.user_id = uid ∧ h.property_id = pid
      · have hrest : ∀ g ∈ rest, ¬(g.user_id = uid ∧ g.property_id = pid) := by
          intro g hg hgm
          apply hhead
          have hkey : (g.user_id, g.property_id) = (h.user_id, h.property_id) := by
            rw [hgm.1, hgm.2, hm.1, hm.2]
          rw [← hkey]
          exact List.mem_map_of_mem _ hg
        simp only [updateHolding, upsertHolding, if_pos hm]
        rw [updateHolding_of_no_match rest uid pid v hrest]
        obtain ⟨hmu, hmp⟩ := hm
        cases h
        simp_all
      · simp only [updateHolding, upsertHolding, if_neg hm]
        rw [ih htail (by simpa [lookupHolding, hm] using hl)]

theorem lookupHolding_updateHolding (hs : List Holding) (uid : Option String)
    (pid : String) (v : Int) :
    lookupHolding (updateHolding hs uid pid v) uid pid =
      (lookupHolding hs uid pid).map fun _ => v := by
  induction hs with
  | nil => rfl
  | cons h rest ih =>
      by_cases hm : h.user_id = uid ∧ h.property_id = pid
      · simp [updateHolding, lookupHolding, hm]
      · simp only [updateHolding, if_neg hm, lookupHolding]
        exact ih

/-- Shape of the store after a buy run in which every write succeeded:
one BUY transaction appended, the user_shares row upserted to
`(existingShares?.shares || 0) + shares`, and the property row set to the
snapshot value `property.available_shares - shares`. -/
theorem buyOp_success_eq (s : LedgerState) (f : FailureSchedule) (pid : String)
    (shares : Int) (uid : Option String) (p : Property)
    (hll : lookupProp s.properties pid = some p) (hav : ¬p.available_shares < shares)
    (htx : f.txError = false) (fh : f.holdingError = false) (fp : f.propError = false) :
    buyOp f s pid shares uid =
      (Outcome.purchased,
        { properties := updateProp s.properties pid
            fun q => { q with available_shares := p.available_shares - shares },
          user_shares := upsertHolding s.user_shares uid pid
            ((lookupHolding s.user_shares uid pid).getD 0 + shares),
          transactions := s.transactions ++ [⟨pid, uid, TxType.BUY, shares, p.price_per_share⟩] }) := by
  simp [buyOp, buyCheck, buyCommit, hll, hav, htx, fh, fp]

/-- Shape of the store after a sell run in which every write succeeded:
one SELL transaction appended, the user_shares row set to
`userShares.shares - shares`, and the property row set to the snapshot
value `property.available_shares + shares`. -/
theorem sellOp_success_eq (s : LedgerState) (f : FailureSchedule) (pid : String)
    (shares : Int) (uid : Option String) (p : Property) (w : Int)
    (hll : lookupProp s.properties pid = some p)
    (hw : lookupHolding s.user_shares uid pid = some w) (hge : ¬w < shares)
    (htx : f.txError = false) (fh : f.holdingError = false) (fp : f.propError = false) :
    sellOp f s pid shares uid =
      (Outcome.sold,
        { properties := updateProp s.properties pid
            fun q => { q with available_shares := p.available_shares + shares },
          user_shares := updateHolding s.user_shares uid pid (w - shares),
          transactions := s.transactions ++ [⟨pid, uid, TxType.SELL, shares, p.price_per_share⟩] }) := by
  simp [sellOp, hll, hw, hge, htx, fh, fp]

/-- A buy run whose outcome is the 201 success or the 400 availability
rejection preserves the ledger invariant of every property. -/
theorem buy_preserves_shareInvariant (s : LedgerState) (f : FailureSchedule)
    (pid qid : String) (shares : Int) (uid : Option String)
    (hinv : shareInvariant s qid)
    (hout : (buyOp f s pid shares uid).fst = Outcome.purchased ∨
            (buyOp f s pid shares uid).fst = Outcome.notEnoughShares) :
    shareInvariant (buyOp f s pid shares uid).snd qid := by
  rcases hll : lookupProp s.properties pid with _ | p
  · simpa [buyOp, buyCheck, hll] using hinv
  · by_cases hav : p.available_shares < shares
    · simpa [buyOp, buyCheck, hll, hav] using hinv
    · cases htx : f.txError with
      | true => simp [buyOp, buyCheck, buyCommit, hll, hav, htx] at hout
      | false =>
        cases fh : f.holdingError with
        | true => simp [buyOp, buyCheck, buyCommit, hll, hav, htx, fh] at hout
        | false =>
          cases fp : f.propError with
          | true => simp [buyOp, buyCheck, buyCommit, hll, hav, htx, fh, fp] at hout
          | false =>
            rw [buyOp_success_eq s f pid shares uid p hll hav htx fh fp]
            unfold shareInvariant at hinv ⊢
            intro q hq
            simp only at hq ⊢
            rw [lookupProp_updateProp] at hq
            rw [holdingsSum_upsertHolding]
            by_cases hpq : pid = qid
            · subst hpq
              rw [hll] at hq
              simp only [if_pos rfl, Option.map_some'] at hq ⊢
              injection hq with hq2
              subst hq2
              have hbase := hinv p hll
              simp only [if_true]
              omega
            · rw [if_neg hpq] at hq
              rw [if_neg hpq]
              have hbase := hinv q hq
              omega

/-- A sell run whose outcome is the 200 success or the 400 insufficient
rejection preserves the ledger invariant of every property, provided the
user_shares keys are unique (the store constraint behind onConflict). -/
theorem sell_preserves_shareInvariant (s : LedgerState) (f : FailureSchedule)
    (pid qid : String) (shares : Int) (uid : Option String)
    (hnd : keysNodup s.user_shares) (hinv : shareInvariant s qid)
    (hout : (sellOp f s pid shares uid).fst = Outcome.sold ∨
            (sellOp f s pid shares uid).fst = Outcome.insufficientShares) :
    shareInvariant (sellOp f s pid shares uid).snd qid := by
  rcases hll : lookupProp s.properties pid with _ | p
  · simpa [sellOp, hll] using hinv
  · rcases hw : lookupHolding s.user_shares uid pid with _ | w
    · simpa [sellOp, hll, hw] using hinv
    · by_cases hlt : w < shares
      · simpa [sellOp, hll, hw, hlt] using hinv
      · cases htx : f.txError with
        | true => simp [sellOp, hll, hw, hlt, htx] at hout
        | false =>
          cases fh : f.holdingError with
          | true => simp [sellOp, hll, hw, hlt, htx, fh] at hout
          | false =>
            cases fp : f.propError with
            | true => simp [sellOp, hll, hw, hlt, htx, fh, fp] at hout
            | false =>
              rw [sellOp_success_eq s f pid shares uid p w hll hw hlt htx fh fp]
              unfold shareInvariant at hinv ⊢
              intro q hq
              simp only at hq ⊢
              rw [updateHolding_eq_upsertHolding s.user_shares uid pid (w - shares) w hnd hw]
              rw [lookupProp_updateProp] at hq
              rw [holdingsSum_upsertHolding]
              by_cases hpq : pid = qid
              · subst hpq
                rw [hll] at hq
                simp only [if_pos rfl, Option.map_some'] at hq ⊢
                injection hq with hq2
                subst hq2
                have hbase := hinv p hll
                rw [hw]
                simp only [Option.getD_some, if_true]
                omega
              · rw [if_neg hpq] at hq
                rw [if_neg hpq]
                have hbase := hinv q hq
                omega

/-! ### The claims -/

/-- Claim C1: for every property, if the ledger invariant
available_shares + sum of all holdings = total_shares holds before a buy
or sell run that completes (returning the success response or the
availability/holding rejection, with no store write left failing), it
holds after the run as well. -/
theorem claim_C1_invariant_preserved (s : LedgerState) (f : FailureSchedule)
    (pid qid : String) (shares : Int) (uid : Option String)
    (hnd : keysNodup s.user_shares) (hinv : shareInvariant s qid) :
    (((buyOp f s pid shares uid).fst = Outcome.purchased ∨
      (buyOp f s pid shares uid).fst = Outcome.notEnoughShares) →
        shareInvariant (buyOp f s pid shares uid).snd qid) ∧
    (((sellOp f s pid shares uid).fst = Outcome.sold ∨
      (sellOp f s pid shares uid).fst = Outcome.insufficientShares) →
        shareInvariant (sellOp f s pid shares uid).snd qid) :=
  ⟨buy_preserves_shareInvariant s f pid qid shares uid hinv,
   sell_preserves_shareInvariant s f pid qid shares uid hnd hinv⟩

/-- Instantiation of the invariant preservation theorem: buying 10 shares
of the sample property keeps the invariant of that property. -/
theorem claim_C1_invariant_preserved_witness :
    shareInvariant (buyOp noFail sampleState "p1" 10 (some "u1")).snd "p1" :=
  (claim_C1_invariant_preserved sampleState noFail "p1" "p1" 10 (some "u1")
      (by decide) (by decide)).1 (Or.inl (by decide))

/-- Claim C4: when the property exists and the requested shares exceed
available_shares, buy returns the 400 'Not enough shares available'
rejection (the spec's InsufficientSupply) and the whole store — property,
holdings and transaction history — is exactly the state before the call. -/
theorem claim_C4_buy_insufficient_supply (s : LedgerState) (f : FailureSchedule)
    (pid : String) (shares : Int) (uid : Option String) (p : Property)
    (hll : lookupProp s.properties pid = some p)
    (hgt : p.available_shares < shares) :
    buyOp f s pid shares uid = (Outcome.notEnoughShares, s) := by
  simp [buyOp, buyCheck, hll, hgt]

/-- Instantiation of the insufficient-supply rejection: asking for 200 of
the 100 available shares is rejected with no state change. -/
theorem claim_C4_buy_insufficient_supply_witness :
    buyOp noFail sampleState "p1" 200 (some "u1") = (Outcome.notEnoughShares, sampleState) :=
  claim_C4_buy_insufficient_supply sampleState noFail "p1" 200 (some "u1")
    ⟨100, 100, 5⟩ (by decide) (by decide)

/-- Counterexample to claim C5 as stated: a sell against an absent
holding row does not fail with the insufficient-holding rejection. The
`.single()` read of user_shares errors on zero rows and the sell handler
rethrows every read error (index.js line 387), so the absent-holding case
surfaces as a thrown server error instead, and the 400 'Insufficient
shares' branch is reached only when a row exists. -/
theorem claim_C5_counterexample :
    (sellOp noFail sampleState "p1" 1 (some "u1")).fst = Outcome.thrownError ∧
    (sellOp noFail sampleState "p1" 1 (some "u1")).fst ≠ Outcome.insufficientShares := by
  decide

/-- Claim C5 (amended): with the property present, a sell against an
absent holding fails with a thrown store error and changes no state, and
a sell against an existing holding of fewer shares than requested fails
with the 400 'Insufficient shares' rejection and changes no state. -/
theorem claim_C5_sell_insufficient_holding (s : LedgerState) (f : FailureSchedule)
    (pid : String) (shares : Int) (uid : Option String) (p : Property)
    (hll : lookupProp s.properties pid = some p) :
    (lookupHolding s.user_shares uid pid = none →
      sellOp f s pid shares uid = (Outcome.thrownError, s)) ∧
    (∀ w, lookupHolding s.user_shares uid pid = some w → w < shares →
      sellOp f s pid shares uid = (Outcome.insufficientShares, s)) := by
  constructor
  · intro hw
    simp [sellOp, hll, hw]
  · intro w hw hlt
    simp [sellOp, hll, hw, hlt]

/-- Instantiation of the amended C5: user u1 holds 10 shares and tries to
sell 20; the sell is rejected with no state change. -/
theorem claim_C5_sell_insufficient_holding_witness :
    sellOp noFail sampleWithHolding "p1" 20 (some "u1") =
      (Outcome.insufficientShares, sampleWithHolding) :=
  (claim_C5_sell_insufficient_holding sampleWithHolding noFail "p1" 20 (some "u1")
      ⟨100, 90, 5⟩ (by decide)).2 10 (by decide) (by decide)

/-- Claim C6 fails on the code: the handlers never validate the shares
field. A buy of -5 shares against the sample property (100 of 100 shares
available) is accepted: it returns the 201 success, appends a BUY
transaction with shares -5, creates a holding of -5 shares, and raises
available_shares to 105, beyond total_shares. -/
theorem claim_C6_negative_shares_accepted :
    buyOp noFail sampleState "p1" (-5) (some "u1") =
      (Outcome.purchased,
       ⟨[("p1", ⟨100, 105, 5⟩)], [⟨some "u1", "p1", -5⟩],
        [⟨"p1", some "u1", TxType.BUY, -5, 5⟩]⟩) ∧
    (buyOp noFail sampleState "p1" 0 (some "u1")).fst = Outcome.purchased ∧
    (buyOp noFail sampleState "p1" 0 (some "u1")).snd ≠ sampleState := by
  decide

/-- Claim C7: every successful buy appends exactly one BUY transaction
and every successful sell appends exactly one SELL transaction, carrying
the requested share count and the price_per_share read from the property
row at execution time; every previously recorded transaction is left
exactly in place. -/
theorem claim_C7_one_transaction (s : LedgerState) (f : FailureSchedule)
    (pid : String) (shares : Int) (uid : Option String) (p : Property)
    (hll : lookupProp s.properties pid = some p) :
    ((buyOp f s pid shares uid).fst = Outcome.purchased →
      (buyOp f s pid shares uid).snd.transactions =
        s.transactions ++ [⟨pid, uid, TxType.BUY, shares, p.price_per_share⟩]) ∧
    ((sellOp f s pid shares uid).fst = Outcome.sold →
      (sellOp f s pid shares uid).snd.transactions =
        s.transactions ++ [⟨pid, uid, TxType.SELL, shares, p.price_per_share⟩]) := by
  constructor
  · intro hsucc
    by_cases hav : p.available_shares < shares
    · simp [buyOp, buyCheck, hll, hav] at hsucc
    · cases htx : f.txError with
      | true => simp [buyOp, buyCheck, buyCommit, hll, hav, htx] at hsucc
      | false =>
        cases fh : f.holdingError with
        | true => simp [buyOp, buyCheck, buyCommit, hll, hav, htx, fh] at hsucc
        | false =>
          cases fp : f.propError with
          | true => simp [buyOp, buyCheck, buyCommit, hll, hav, htx, fh, fp] at hsucc
          | false => rw [buyOp_success_eq s f pid shares uid p hll hav htx fh fp]
  · intro hsucc
    rcases hw : lookupHolding s.user_shares uid pid with _ | w
    · simp [sellOp, hll, hw] at hsucc
    · by_cases hlt : w < shares
      · simp [sellOp, hll, hw, hlt] at hsucc
      · cases htx : f.txError with
        | true => simp [sellOp, hll, hw, hlt, htx] at hsucc
        | false =>
          cases fh : f.holdingError with
          | true => simp [sellOp, hll, hw, hlt, htx, fh] at hsucc
          | false =>
            cases fp : f.propError with
            | true => simp [sellOp, hll, hw, hlt, htx, fh, fp] at hsucc
            | false => rw [sellOp_success_eq s f pid shares uid p w hll hw hlt htx fh fp]

/-- Instantiation of C7: the successful sale of 4 of u1's 10 shares
appends exactly the SELL transaction at the property's price 5. -/
theorem claim_C7_one_transaction_witness :
    (sellOp noFail sampleWithHolding "p1" 4 (some "u1")).snd.transactions =
      [⟨"p1", some "u1", TxType.SELL, 4, 5⟩] :=
  (claim_C7_one_transaction sampleWithHolding noFail "p1" 4 (some "u1")
      ⟨100, 90, 5⟩ (by decide)).2 (by decide)

/-- Claim C9: the transaction history is append-only. Any buy or sell
run, under any failure schedule and ending in any outcome, leaves the
prior transaction list as a prefix of the new one (nothing is updated or
deleted), and the two read endpoints return the state unchanged. -/
theorem claim_C9_transactions_append_only (s : LedgerState) (f : FailureSchedule)
    (pid : String) (shares : Int) (uid uid2 : Option String) :
    (∃ t, (buyOp f s pid shares uid).snd.transactions = s.transactions ++ t) ∧
    (∃ t, (sellOp f s pid shares uid).snd.transactions = s.transactions ++ t) ∧
    (getTransactionsOp s uid2).snd = s ∧ (getUserSharesOp s uid2).snd = s := by
  refine ⟨?_, ?_, rfl, rfl⟩
  · rcases hll : lookupProp s.properties pid with _ | p
    · exact ⟨[], by simp [buyOp, buyCheck, hll]⟩
    · by_cases hav : p.available_shares < shares
      · exact ⟨[], by simp [buyOp, buyCheck, hll, hav]⟩
      · cases htx : f.txError with
        | true => exact ⟨[], by simp [buyOp, buyCheck, buyCommit, hll, hav, htx]⟩
        | false =>
          cases fh : f.holdingError with
          | true =>
              exact ⟨[⟨pid, uid, TxType.BUY, shares, p.price_per_share⟩],
                by simp [buyOp, buyCheck, buyCommit, hll, hav, htx, fh]⟩
          | false =>
            cases fp : f.propError with
            | true =>
                exact ⟨[⟨pid, uid, TxType.BUY, shares, p.price_per_share⟩],
                  by simp [buyOp, buyCheck, buyCommit, hll, hav, htx, fh, fp]⟩
            | false =>
                exact ⟨[⟨pid, uid, TxType.BUY, shares, p.price_per_share⟩],
                  by rw [buyOp_success_eq s f pid shares uid p hll hav htx fh fp]⟩
  · rcases hll : lookupProp s.properties pid with _ | p
    · exact ⟨[], by simp [sellOp, hll]⟩
    · rcases hw : lookupHolding s.user_shares uid pid with _ | w
      · exact ⟨[], by simp [sellOp, hll, hw]⟩
      · by_cases hlt : w < shares
        · exact ⟨[], by simp [sellOp, hll, hw, hlt]⟩
        · cases htx : f.txError with
          | true => exact ⟨[], by simp [sellOp, hll, hw, hlt, htx]⟩
          | false =>
            cases fh : f.holdingError with
            | true =>
                exact ⟨[⟨pid, uid, TxType.SELL, shares, p.price_per_share⟩],
                  by simp [sellOp, hll, hw, hlt, htx, fh]⟩
            | false =>
              cases fp : f.propError with
              | true =>
                  exact ⟨[⟨pid, uid, TxType.SELL, shares, p.price_per_share⟩],
                    by simp [sellOp, hll, hw, hlt, htx, fh, fp]⟩
              | false =>
                  exact ⟨[⟨pid, uid, TxType.SELL, shares, p.price_per_share⟩],
                    by rw [sellOp_success_eq s f pid shares uid p w hll hw hlt htx fh fp]⟩

/-- Claim C8: starting from a property with at least 10 available shares
and a caller with no existing holding, running buy of 10 and then sell
of 4 back to back (every write succeeding, nothing interleaved) leaves
the caller's holding at 6 shares and available_shares at its original
value minus 6. -/
theorem claim_C8_buy10_sell4 (s : LedgerState) (pid : String) (uid : Option String)
    (p : Property) (hll : lookupProp s.properties pid = some p)
    (hav : 10 ≤ p.available_shares)
    (hnoh : lookupHolding s.user_shares uid pid = none) :
    lookupHolding (sellOp noFail (buyOp noFail s pid 10 uid).snd pid 4 uid).snd.user_shares
        uid pid = some 6 ∧
    lookupProp (sellOp noFail (buyOp noFail s pid 10 uid).snd pid 4 uid).snd.properties
        pid = some { p with available_shares := p.available_shares - 6 } := by
  have hav2 : ¬p.available_shares < 10 := by omega
  rw [buyOp_success_eq s noFail pid 10 uid p hll hav2 rfl rfl rfl]
  simp only []
  have hll1 : lookupProp
      (updateProp s.properties pid fun q => { q with available_shares := p.available_shares - 10 })
      pid = some { p with available_shares := p.available_shares - 10 } := by
    rw [lookupProp_updateProp]
    simp [hll]
  have hw1 : lookupHolding
      (upsertHolding s.user_shares uid pid ((lookupHolding s.user_shares uid pid).getD 0 + 10))
      uid pid = some ((lookupHolding s.user_shares uid pid).getD 0 + 10) :=
    lookupHolding_upsertHolding_self s.user_shares uid pid _
  have hge : ¬((lookupHolding s.user_shares uid pid).getD 0 + 10) < 4 := by
    rw [hnoh]; decide
  rw [sellOp_success_eq _ noFail pid 4 uid _ _ hll1 hw1 hge rfl rfl rfl]
  simp only []
  constructor
  · rw [lookupHolding_updateHolding, hw1, hnoh]
    decide
  · rw [lookupProp_updateProp]
    simp only [if_pos rfl]
    rw [hll1]
    obtain ⟨pt, pa, pp⟩ := p
    simp only [if_true, Option.map_some', Option.some.injEq, Property.mk.injEq,
      true_and, and_true]
    omega

/-- Instantiation of C8 on the sample property: after buy 10 and sell 4
the holding is 6 and the available pool went from 100 to 94. -/
theorem claim_C8_buy10_sell4_witness :
    lookupHolding (sellOp noFail (buyOp noFail sampleState "p1" 10 (some "u1")).snd
        "p1" 4 (some "u1")).snd.user_shares (some "u1") "p1" = some 6 :=
  (claim_C8_buy10_sell4 sampleState "p1" (some "u1") ⟨100, 100, 5⟩
      (by decide) (by decide) (by decide)).1

/-- Claim C10: a buy request with no resolved caller identity
(req.user undefined, so user id null) is not rejected by any precondition
check: with the property present and enough shares available it returns
the 201 success, appends a transaction whose user_id is null, upserts a
holding keyed by the null user, and decrements available_shares. -/
theorem claim_C10_buy_without_user (s : LedgerState) (pid : String) (shares : Int)
    (p : Property) (hll : lookupProp s.properties pid = some p)
    (hav : ¬p.available_shares < shares) :
    (buyOp noFail s pid shares none).fst = Outcome.purchased ∧
    (buyOp noFail s pid shares none).snd.transactions =
      s.transactions ++ [⟨pid, none, TxType.BUY, shares, p.price_per_share⟩] ∧
    lookupHolding (buyOp noFail s pid shares none).snd.user_shares none pid =
      some ((lookupHolding s.user_shares none pid).getD 0 + shares) ∧
    lookupProp (buyOp noFail s pid shares none).snd.properties pid =
      some { p with available_shares := p.available_shares - shares } := by
  rw [buyOp_success_eq s noFail pid shares none p hll hav rfl rfl rfl]
  simp only []
  refine ⟨trivial, trivial, lookupHolding_upsertHolding_self s.user_shares none pid _, ?_⟩
  rw [lookupProp_updateProp]
  simp [hll]

/-- Instantiation of C10: an anonymous buy of 10 shares of the sample
property succeeds. -/
theorem claim_C10_buy_without_user_witness :
    (buyOp noFail sampleState "p1" 10 none).fst = Outcome.purchased :=
  (claim_C10_buy_without_user sampleState "p1" 10 ⟨100, 100, 5⟩
      (by decide) (by decide)).1

/-- The post-state of the first of two interleaved buy commits against
the same snapshot of the sample property. -/
def raceMid : LedgerState :=
  (buyCommit noFail sampleState "p1" 60 (some "alice") ⟨⟨100, 100, 5⟩, none⟩).snd

/-- The post-state after the second interleaved buy commit, whose
snapshot was also read before the first commit. -/
def raceFinal : LedgerState :=
  (buyCommit noFail raceMid "p1" 60 (some "bob") ⟨⟨100, 100, 5⟩, none⟩).snd

/-- The stale-read race of the buy handler (claim C2 fails on the code):
with 100 shares available, the availability checks of two buys of 60
shares each both pass against the same snapshot; running both commits
then makes BOTH requests return the 201 success, hands out 120 shares in
holdings while available_shares is left at the second stale write of 40,
and the ledger invariant is broken (40 + 120 is not 100). -/
theorem claim_C2_concurrent_oversell :
    buyCheck sampleState "p1" 60 (some "alice") = Except.ok ⟨⟨100, 100, 5⟩, none⟩ ∧
    buyCheck sampleState "p1" 60 (some "bob") = Except.ok ⟨⟨100, 100, 5⟩, none⟩ ∧
    (buyCommit noFail sampleState "p1" 60 (some "alice") ⟨⟨100, 100, 5⟩, none⟩).fst =
      Outcome.purchased ∧
    (buyCommit noFail raceMid "p1" 60 (some "bob") ⟨⟨100, 100, 5⟩, none⟩).fst =
      Outcome.purchased ∧
    holdingsSum raceFinal.user_shares "p1" = 120 ∧
    lookupProp raceFinal.properties "p1" = some ⟨100, 40, 5⟩ ∧
    ¬shareInvariant raceFinal "p1" :=
  ⟨rfl, rfl, rfl, rfl, by decide, by decide, by decide⟩

/-- A failing user_shares write during buy leaves a partial commit
(claim C3 fails on the code): buying 10 shares of the sample property
with the holding upsert failing throws, yet the BUY transaction row
appended by the earlier step stays in the store while the holding and
the property row are untouched — the state is neither fully applied nor
rolled back. -/
theorem claim_C3_partial_commit :
    buyOp ⟨false, true, false⟩ sampleState "p1" 10 (some "u1") =
      (Outcome.thrownError,
       ⟨[("p1", ⟨100, 100, 5⟩)], [], [⟨"p1", some "u1", TxType.BUY, 10, 5⟩]⟩) ∧
    (buyOp ⟨false, true, false⟩ sampleState "p1" 10 (some "u1")).snd ≠ sampleState := by
  decide

end BrickByte
